import Mathlib

/-!
Verification of the mujoco-react core: the per-frame step scheduler of
`src/core/MujocoSimProvider.tsx` (useFrame physics step, reset, snapshot
save/restore, single-step API) and the damped-least-squares IK solver
`GenericIK.solve` of `src/core/createController.tsx`.

The embedding is shallow: the mutable `mjData` arrays become lists of
rationals, the physics-engine adapter (`mj_step`, `mj_forward`,
`mj_resetData`) is an abstract state transformer, and real-number
quantities are modelled over `ℚ`.  Floating-point rounding is not
modelled; comparisons that the source makes on square roots are made on
squared quantities (a strictly monotone transform that preserves every
branch decision for the non-negative values involved).
-/

namespace MujocoReact

/-- The mutable simulation state (the `mjData` fields used by the core):
`time`, generalized coordinates `qpos`, velocities `qvel`, controls
`ctrl`, activations `act`, the applied-force accumulator `qfrc_applied`,
the bias force `qfrc_bias`, and the derived site pose arrays
`site_xpos` (3 per site) / `site_xmat` (9 per site, row-major). -/
structure MjData where
  time : ℚ
  qpos : List ℚ
  qvel : List ℚ
  ctrl : List ℚ
  act : List ℚ
  qfrc_applied : List ℚ
  qfrc_bias : List ℚ
  site_xpos : List ℚ
  site_xmat : List ℚ
  deriving DecidableEq

/-- The abstract physics-engine adapter: synchronous `mj_step`,
`mj_forward` and `mj_resetData` calls, each mutating the state. -/
structure Engine where
  mj_step : MjData → MjData
  mj_forward : MjData → MjData
  mj_resetData : MjData → MjData

/-- Scheduler state held in refs by `MujocoSimProvider`:
`pausedRef`, `speedRef`, `substepsRef` and `stepsToRunRef`. -/
structure Sched where
  paused : Bool
  speed : ℚ
  substeps : Nat
  stepsToRun : Nat
  deriving DecidableEq

/-- A registered before-step or after-step callback.  The immutable model
argument is closed over; the callback transforms the simulation state. -/
def Callback : Type := MjData → MjData

/-- Run a list of registered callbacks in registration order
(the `for (const cb of callbacks)` loops of the physics step). -/
def runCallbacks (cbs : List Callback) (d : MjData) : MjData :=
  cbs.foldl (fun d cb => cb d) d

/-- Zero the first `n` entries of a list
(the `for (let i = 0; i < model.nv; i++) data.qfrc_applied[i] = 0` loop). -/
def zeroFirst : Nat → List ℚ → List ℚ
  | 0, l => l
  | _ + 1, [] => []
  | n + 1, _ :: l => 0 :: zeroFirst n l

/-- Add the first `n` entries of a contribution vector into a list
(the `data.qfrc_applied[i] += c[i]` accumulation pattern over `i < nv`). -/
def addFirst : Nat → List ℚ → List ℚ → List ℚ
  | 0, _, l => l
  | n + 1, c, l =>
    match c, l with
    | c0 :: ct, x :: xt => (x + c0) :: addFirst n ct xt
    | _, _ => l

/-- Zero the generalized applied forces for all `nv` entries
(start of every stepping tick). -/
def zeroQfrc (nv : Nat) (d : MjData) : MjData :=
  { d with qfrc_applied := zeroFirst nv d.qfrc_applied }

/-- The before-step phase of a stepping tick: zero `qfrc_applied`
once, then run every before-step callback in order. -/
def beforePhase (nv : Nat) (cbs : List Callback) (d : MjData) : MjData :=
  runCallbacks cbs (zeroQfrc nv d)

/-- The optional IK block of the tick (`if (ikEnabledRef.current && target)`):
when enabled it writes the solver result into `ctrl`, otherwise it leaves
the state untouched.  Modelled as an optional state transformer. -/
def ikApply (ik : Option (MjData → MjData)) (d : MjData) : MjData :=
  match ik with
  | some f => f d
  | none => d

/-- Call `mj_step` a given number of times in sequence. -/
def iterateSteps (eng : Engine) : Nat → MjData → MjData
  | 0, d => d
  | k + 1, d => iterateSteps eng k (eng.mj_step d)

/-- The simulated-time budget of one render frame in the normal stepping
path: the source computes `frameTime = (1.0 / 60.0) * speedRef.current`. -/
def frameTime (speed : ℚ) : ℚ := (1 / 60) * speed

/-- Formalisation of the spec sentence, for comparison with `frameTime`:
the claimed computation `frameTime = realDeltaSeconds * speedMultiplier`
with `realDeltaSeconds` clamped to an upper bound. -/
def frameTimeClaimed (realDelta clampMax speed : ℚ) : ℚ :=
  min realDelta clampMax * speed

/-- The inner catch-up loop of the normal stepping path:
`while (data.time - startSimTime < frameTime) { substeps × mj_step }`.
The loop in the source runs unboundedly; here it carries explicit fuel
and reports `none` when the fuel is exhausted before the condition
fails, so every theorem about a `some` result speaks about a run the
source would have completed.  The returned number counts `mj_step`
calls. -/
def stepLoop (eng : Engine) (substeps : Nat) (frameStart ft : ℚ) :
    Nat → MjData → Option (MjData × Nat)
  | 0, d => if d.time - frameStart < ft then none else some (d, 0)
  | fuel + 1, d =>
    if d.time - frameStart < ft then
      match stepLoop eng substeps frameStart ft fuel (iterateSteps eng substeps d) with
      | none => none
      | some (e, k) => some (e, k + substeps)
    else some (d, 0)

/-- One tick of the step scheduler (the physics part of the `useFrame`
handler, priority −1): decide `shouldStep`, zero forces, run before-step
callbacks, run the optional IK block, advance physics (single-step mode
or the timed catch-up loop), then run after-step callbacks.  Returns the
new state, the new scheduler state, and the number of `mj_step` calls
made; `none` only when the catch-up loop ran out of fuel.  The gizmo and
camera animation blocks that precede `shouldStep` in the source touch
only UI objects, never `mjData`, and are omitted. -/
def tick (eng : Engine) (nv : Nat) (ik : Option (MjData → MjData))
    (before after : List Callback) (fuel : Nat) (s : Sched) (d : MjData) :
    Option (MjData × Sched × Nat) :=
  if s.paused = false ∨ 0 < s.stepsToRun then
    let d2 := ikApply ik (beforePhase nv before d)
    if 0 < s.stepsToRun then
      some (runCallbacks after (iterateSteps eng s.stepsToRun d2),
        { s with stepsToRun := 0 }, s.stepsToRun)
    else
      match stepLoop eng s.substeps d2.time (frameTime s.speed) fuel d2 with
      | none => none
      | some (d3, n) => some (runCallbacks after d3, s, n)
  else some (d, s, 0)

/-- The `step(n = 1)` API method: `stepsToRunRef.current = n`
(an assignment, not an increment). -/
def step (n : Nat) (s : Sched) : Sched := { s with stepsToRun := n }

/-- A concrete simulation state used to instantiate theorems. -/
def d0 : MjData :=
  ⟨0, [0], [0], [0], [], [0], [0], [0, 0, 0], [1, 0, 0, 0, 1, 0, 0, 0, 1]⟩

/-- A concrete engine whose physics step advances time by `1/500`. -/
def eng0 : Engine :=
  ⟨fun d => { d with time := d.time + 1 / 500 }, fun d => d,
    fun d => { d with time := 0 }⟩

/-- A concrete state with two degrees of freedom. -/
def dg : MjData :=
  ⟨0, [0, 0], [0, 0], [0, 0], [], [5, 6], [3, 4], [0, 0, 0],
    [1, 0, 0, 0, 1, 0, 0, 0, 1]⟩

lemma iterateSteps_time (eng : Engine) (dt : ℚ)
    (hstep : ∀ x, (eng.mj_step x).time = x.time + dt) :
    ∀ (k : Nat) (d : MjData), (iterateSteps eng k d).time = d.time + k * dt := by
  intro k
  induction k with
  | zero => intro d; simp [iterateSteps]
  | succ m ih =>
    intro d
    rw [iterateSteps, ih, hstep]
    push_cast
    ring

lemma stepLoop_inv (eng : Engine) (dt : ℚ) (substeps : Nat) (frameStart ft : ℚ)
    (hstep : ∀ x, (eng.mj_step x).time = x.time + dt) :
    ∀ (fuel : Nat) (d e : MjData) (n : Nat),
      stepLoop eng substeps frameStart ft fuel d = some (e, n) →
      substeps ∣ n ∧ e.time = d.time + n * dt ∧ ¬ e.time - frameStart < ft ∧
        (0 < n → d.time + ((n : ℚ) - substeps) * dt - frameStart < ft) := by
  intro fuel
  induction fuel with
  | zero =>
    intro d e n h
    rw [stepLoop] at h
    by_cases hc : d.time - frameStart < ft
    · rw [if_pos hc] at h; cases h
    · rw [if_neg hc] at h
      obtain ⟨he, hn⟩ : e = d ∧ n = 0 := by
        have := Option.some.inj h
        exact ⟨(congrArg Prod.fst this).symm, (congrArg Prod.snd this).symm⟩
      subst he; subst hn
      exact ⟨dvd_zero _, by simp, hc, by intro hh; exact absurd hh (by simp)⟩
  | succ fuel ih =>
    intro d e n h
    rw [stepLoop] at h
    by_cases hc : d.time - frameStart < ft
    · rw [if_pos hc] at h
      cases hl : stepLoop eng substeps frameStart ft fuel (iterateSteps eng substeps d) with
      | none => rw [hl] at h; cases h
      | some p =>
        obtain ⟨e1, k⟩ := p
        rw [hl] at h
        obtain ⟨he, hn⟩ : e1 = e ∧ k + substeps = n := by
          have := Option.some.inj h
          exact ⟨congrArg Prod.fst this, congrArg Prod.snd this⟩
        obtain ⟨ihd, ihtime, ihstop, ihlast⟩ := ih _ _ _ hl
        subst he; subst hn
        refine ⟨dvd_add ihd dvd_rfl, ?_, ihstop, ?_⟩
        · rw [ihtime, iterateSteps_time eng dt hstep]
          push_cast
          ring
        · intro _
          rcases Nat.eq_zero_or_pos k with hk | hk
          · subst hk
            have : d.time + (((0 + substeps : Nat) : ℚ) - substeps) * dt - frameStart =
                d.time - frameStart := by push_cast; ring
            rw [this]
            exact hc
          · have h2 := ihlast hk
            rw [iterateSteps_time eng dt hstep] at h2
            have : d.time + (((k + substeps : Nat) : ℚ) - substeps) * dt - frameStart =
                d.time + substeps * dt + ((k : ℚ) - substeps) * dt - frameStart := by
              push_cast; ring
            rw [this]
            exact h2
    · rw [if_neg hc] at h
      obtain ⟨he, hn⟩ : e = d ∧ n = 0 := by
        have := Option.some.inj h
        exact ⟨(congrArg Prod.fst this).symm, (congrArg Prod.snd this).symm⟩
      subst he; subst hn
      exact ⟨dvd_zero _, by simp, hc, by intro hh; exact absurd hh (by simp)⟩

/-- C1 counterexample: the source computes the per-frame simulated-time
budget as `frameTime = (1.0 / 60.0) * speedRef.current`, a constant
nominal frame duration; the claimed formula
`frameTime = realDeltaSeconds * speedMultiplier` (with the clamp bound
1/15 s the claim gives as example) disagrees with it already at a real
frame delta of 1/30 s and speed 1. -/
theorem frameTime_ne_claimedFormula :
    frameTime 1 ≠ frameTimeClaimed (1 / 30) (1 / 15) 1 := by
  norm_num [frameTime, frameTimeClaimed]

/-- C1 amended: in the normal stepping path the per-frame simulated-time
budget is the fixed `frameTime = (1/60) * speedMultiplier`, independent
of the real frame delta (which the handler never reads); the engine's
physics step is called `substeps` times per iteration of the inner loop
while `state.time − frameStartTime < frameTime`: every terminating run
executes a multiple of `substeps` steps, stops as soon as the simulated
time consumed reaches `frameTime`, and the loop condition still held
before the final batch of substeps. -/
theorem stepLoop_frameTime_spec (eng : Engine) (dt : ℚ) (substeps : Nat)
    (speed : ℚ) (fuel : Nat) (d e : MjData) (n : Nat)
    (hstep : ∀ x, (eng.mj_step x).time = x.time + dt)
    (h : stepLoop eng substeps d.time (frameTime speed) fuel d = some (e, n)) :
    frameTime speed = (1 / 60) * speed ∧
    substeps ∣ n ∧
    e.time = d.time + n * dt ∧
    frameTime speed ≤ (n : ℚ) * dt ∧
    (0 < n → ((n : ℚ) - substeps) * dt < frameTime speed) := by
  obtain ⟨h1, h2, h3, h4⟩ :=
    stepLoop_inv eng dt substeps d.time (frameTime speed) hstep fuel d e n h
  refine ⟨rfl, h1, h2, ?_, ?_⟩
  · have h5 := not_lt.mp h3
    rw [h2] at h5
    linarith
  · intro hn
    have h6 := h4 hn
    linarith

/-- C1 witness: a concrete terminating run of the catch-up loop
(step size 1/500 s, one substep per iteration, speed 1) executes nine
engine steps. -/
theorem stepLoop_frameTime_spec_witness :
    frameTime 1 = (1 / 60) * 1 ∧
    1 ∣ 9 ∧
    ({ d0 with time := 9 / 500 } : MjData).time = d0.time + ((9 : Nat) : ℚ) * (1 / 500) ∧
    frameTime 1 ≤ ((9 : Nat) : ℚ) * (1 / 500) ∧
    (0 < 9 → (((9 : Nat) : ℚ) - (1 : Nat)) * (1 / 500) < frameTime 1) :=
  stepLoop_frameTime_spec eng0 (1 / 500) 1 1 10 d0 { d0 with time := 9 / 500 } 9
    (fun _ => rfl) (by norm_num [stepLoop, iterateSteps, eng0, d0, frameTime])

/-- C2: on a tick with a pending single-step count `stepsToRun > 0`,
exactly that many `mj_step` calls are executed, regardless of the paused
flag and of the speed multiplier (the result is the same expression for
every `paused`/`speed` value and never consults them), and the pending
count is reset to 0 on that same tick. -/
theorem tick_singleStep_consumesAll (eng : Engine) (nv : Nat)
    (ik : Option (MjData → MjData)) (before after : List Callback)
    (fuel : Nat) (s : Sched) (d : MjData) (h : 0 < s.stepsToRun) :
    ∀ (b : Bool) (v : ℚ),
      tick eng nv ik before after fuel { s with paused := b, speed := v } d =
        some (runCallbacks after
            (iterateSteps eng s.stepsToRun (ikApply ik (beforePhase nv before d))),
          { s with paused := b, speed := v, stepsToRun := 0 }, s.stepsToRun) := by
  intro b v
  simp [tick, h]

/-- C2 witness: with a paused scheduler, speed 2 and three pending
single steps, the tick runs exactly three engine steps and clears the
counter. -/
theorem tick_singleStep_consumesAll_witness :
    0 < (3 : Nat) ∧
      tick eng0 1 none [] [] 0 ⟨true, 2, 1, 3⟩ d0 =
        some (runCallbacks []
            (iterateSteps eng0 3 (ikApply none (beforePhase 1 [] d0))),
          ⟨true, 2, 1, 0⟩, 3) :=
  ⟨by decide,
    tick_singleStep_consumesAll eng0 1 none [] [] 0 ⟨true, 2, 1, 3⟩ d0 (by decide) true 2⟩

/-- C4: a tick invoked while paused with no pending single steps returns
before zeroing forces and before running any callback: the simulation
state (time, qpos, qvel, ctrl and in particular qfrc_applied) is
returned unchanged and zero engine steps are executed, for every
registered callback set. -/
theorem tick_paused_noMutation (eng : Engine) (nv : Nat)
    (ik : Option (MjData → MjData)) (before after : List Callback)
    (fuel : Nat) (s : Sched) (d : MjData)
    (hp : s.paused = true) (h0 : s.stepsToRun = 0) :
    tick eng nv ik before after fuel s d = some (d, s, 0) := by
  simp [tick, hp, h0]

/-- C4 witness: a concrete paused tick with a force-writing before-step
callback installed still returns the state bit-for-bit unchanged. -/
theorem tick_paused_noMutation_witness :
    (⟨true, 1, 1, 0⟩ : Sched).paused = true ∧
      tick eng0 1 none [fun d => { d with qfrc_applied := [7] }] [] 0
          ⟨true, 1, 1, 0⟩ d0 =
        some (d0, ⟨true, 1, 1, 0⟩, 0) :=
  ⟨rfl,
    tick_paused_noMutation eng0 1 none [fun d => { d with qfrc_applied := [7] }] [] 0
      ⟨true, 1, 1, 0⟩ d0 rfl rfl⟩

/-- C10: `step(a)` followed by `step(b)` with no tick in between leaves
the pending count at `b` (the request replaces the pending count, it
does not accumulate), and the next stepping tick executes exactly `b`
engine steps. -/
theorem step_request_replaces (eng : Engine) (nv : Nat)
    (ik : Option (MjData → MjData)) (before after : List Callback)
    (fuel : Nat) (a b : Nat) (s : Sched) (d : MjData) (hb : 0 < b) :
    step b (step a s) = step b s ∧
      tick eng nv ik before after fuel (step b (step a s)) d =
        some (runCallbacks after
            (iterateSteps eng b (ikApply ik (beforePhase nv before d))),
          { s with stepsToRun := 0 }, b) := by
  refine ⟨rfl, ?_⟩
  simp [tick, step, hb]

/-- A before-step callback that adds a fixed contribution vector into the
first `nv` entries of `qfrc_applied` (the additive discipline the provider
demands of force-contributing callbacks). -/
def addCb (nv : Nat) (c : List ℚ) : Callback :=
  fun d => { d with qfrc_applied := addFirst nv c d.qfrc_applied }

/-- The `useGravityCompensation` before-step callback: for each of the
`nv` DOFs it adds `qfrc_bias` into `qfrc_applied`. -/
def gravityCompensation (nv : Nat) : Callback :=
  fun d => { d with qfrc_applied := addFirst nv d.qfrc_bias d.qfrc_applied }

/-- Pointwise sum of a list of per-callback contribution vectors over the
first `nv` force entries. -/
def vecSum (nv : Nat) (cs : List (List ℚ)) : List ℚ :=
  cs.foldr (addFirst nv) (List.replicate nv 0)

lemma zeroFirst_eq_replicate : ∀ (n : Nat) (l : List ℚ), l.length = n →
    zeroFirst n l = List.replicate n 0 := by
  intro n
  induction n with
  | zero =>
    intro l h
    rw [List.length_eq_zero] at h
    subst h
    rfl
  | succ m ih =>
    intro l h
    cases l with
    | nil => simp at h
    | cons x xs =>
      simp only [List.length_cons, Nat.succ.injEq] at h
      simp [zeroFirst, List.replicate, ih xs h]

lemma addFirst_comm : ∀ (n : Nat) (a b l : List ℚ),
    addFirst n a (addFirst n b l) = addFirst n b (addFirst n a l) := by
  intro n
  induction n with
  | zero => intro a b l; rfl
  | succ m ih =>
    intro a b l
    cases a with
    | nil =>
      cases b with
      | nil => rfl
      | cons b0 bs => cases l with
        | nil => rfl
        | cons x xs => simp [addFirst]
    | cons a0 as =>
      cases b with
      | nil => cases l with
        | nil => rfl
        | cons x xs => simp [addFirst]
      | cons b0 bs =>
        cases l with
        | nil => rfl
        | cons x xs =>
          simp only [addFirst, List.cons.injEq]
          exact ⟨by ring, ih as bs xs⟩

lemma addFirst_length : ∀ (n : Nat) (c l : List ℚ),
    (addFirst n c l).length = l.length := by
  intro n
  induction n with
  | zero => intro c l; rfl
  | succ m ih =>
    intro c l
    cases c with
    | nil => cases l <;> rfl
    | cons c0 cs =>
      cases l with
      | nil => rfl
      | cons x xs => simp [addFirst, ih]

lemma addFirst_getD : ∀ (n : Nat) (c l : List ℚ) (i : Nat), i < n → i < c.length →
    i < l.length → (addFirst n c l).getD i 0 = l.getD i 0 + c.getD i 0 := by
  intro n
  induction n with
  | zero => intro c l i hi; omega
  | succ m ih =>
    intro c l i hi hc hl
    cases c with
    | nil => simp at hc
    | cons c0 cs =>
      cases l with
      | nil => simp at hl
      | cons x xs =>
        cases i with
        | zero => simp [addFirst]
        | succ j =>
          simp only [addFirst, List.getD_cons_succ]
          exact ih cs xs j (by omega) (by simpa using hc) (by simpa using hl)

lemma vecSum_length (nv : Nat) (cs : List (List ℚ)) :
    (vecSum nv cs).length = nv := by
  induction cs with
  | nil => simp [vecSum]
  | cons c cs ih => simpa [vecSum, addFirst_length] using ih

lemma vecSum_getD (nv : Nat) (cs : List (List ℚ)) (i : Nat) (hi : i < nv)
    (hc : ∀ c ∈ cs, nv ≤ c.length) :
    (vecSum nv cs).getD i 0 = (cs.map (fun c => c.getD i 0)).sum := by
  induction cs with
  | nil =>
    simp [vecSum, List.getD]
  | cons c cs ih =>
    have h1 : (vecSum nv (c :: cs)) = addFirst nv c (vecSum nv cs) := rfl
    rw [h1, addFirst_getD nv c (vecSum nv cs) i hi
      (lt_of_lt_of_le hi (hc c (by simp))) (by rw [vecSum_length]; exact hi)]
    rw [ih (fun c hm => hc c (by simp [hm]))]
    simp [add_comm]

lemma foldr_addFirst_pull (nv : Nat) : ∀ (cs : List (List ℚ)) (c init : List ℚ),
    cs.foldr (addFirst nv) (addFirst nv c init) =
      addFirst nv c (cs.foldr (addFirst nv) init) := by
  intro cs
  induction cs with
  | nil => intro c init; rfl
  | cons e es ih =>
    intro c init
    simp only [List.foldr_cons]
    rw [ih, addFirst_comm]

lemma foldl_addFirst_eq_foldr (nv : Nat) : ∀ (cs : List (List ℚ)) (init : List ℚ),
    cs.foldl (fun l c => addFirst nv c l) init = cs.foldr (addFirst nv) init := by
  intro cs
  induction cs with
  | nil => intro init; rfl
  | cons c es ih =>
    intro init
    simp only [List.foldl_cons, List.foldr_cons]
    rw [ih, foldr_addFirst_pull]

lemma vecSum_perm (nv : Nat) {cs cs2 : List (List ℚ)} (h : cs.Perm cs2) :
    vecSum nv cs = vecSum nv cs2 := by
  induction h with
  | nil => rfl
  | cons x _ ih => simp only [vecSum, List.foldr_cons] at ih ⊢; rw [ih]
  | swap x y l =>
    simp only [vecSum, List.foldr_cons]
    rw [addFirst_comm]
  | trans _ _ ih1 ih2 => rw [ih1, ih2]

lemma runCallbacks_addCb (nv : Nat) : ∀ (cs : List (List ℚ)) (d : MjData),
    runCallbacks (cs.map (addCb nv)) d =
      { d with qfrc_applied := cs.foldl (fun l c => addFirst nv c l) d.qfrc_applied } := by
  intro cs
  induction cs with
  | nil => intro d; rfl
  | cons c es ih =>
    intro d
    simp only [List.map_cons, runCallbacks, List.foldl_cons]
    have h2 := ih (addCb nv c d)
    simp only [runCallbacks] at h2
    rw [h2]
    rfl

/-- C3: on a stepping tick `qfrc_applied` is zeroed once, before any
before-step callback runs; consequently, for any family of purely
additive before-step callbacks (such as gravity compensation), each
force entry after the before-step phase equals the sum of the
per-callback contributions, and the outcome is invariant under
permuting the callback order.  The gravity-compensation hook is itself
of this additive form, contributing that tick's `qfrc_bias`. -/
theorem qfrc_additive_composition (nv : Nat) (cs cs2 : List (List ℚ)) (d : MjData)
    (hlen : d.qfrc_applied.length = nv) (hc : ∀ c ∈ cs, nv ≤ c.length)
    (hperm : cs.Perm cs2) :
    (beforePhase nv (cs.map (addCb nv)) d).qfrc_applied = vecSum nv cs ∧
    (∀ i, i < nv →
      (beforePhase nv (cs.map (addCb nv)) d).qfrc_applied.getD i 0 =
        (cs.map (fun c => c.getD i 0)).sum) ∧
    (beforePhase nv (cs2.map (addCb nv)) d).qfrc_applied =
      (beforePhase nv (cs.map (addCb nv)) d).qfrc_applied ∧
    (∀ e : MjData, gravityCompensation nv e = addCb nv e.qfrc_bias e) := by
  have key : ∀ cs' : List (List ℚ),
      (beforePhase nv (cs'.map (addCb nv)) d).qfrc_applied = vecSum nv cs' := by
    intro cs'
    show (runCallbacks (cs'.map (addCb nv)) (zeroQfrc nv d)).qfrc_applied = _
    rw [runCallbacks_addCb]
    show (cs'.foldl (fun l c => addFirst nv c l) (zeroQfrc nv d).qfrc_applied) = _
    have hz : (zeroQfrc nv d).qfrc_applied = List.replicate nv 0 :=
      zeroFirst_eq_replicate nv d.qfrc_applied hlen
    rw [hz, foldl_addFirst_eq_foldr]
    rfl
  refine ⟨key cs, ?_, ?_, fun e => rfl⟩
  · intro i hi
    rw [key cs]
    exact vecSum_getD nv cs i hi hc
  · rw [key cs, key cs2, vecSum_perm nv hperm]

/-- C3 witness: two additive contributions over two DOFs compose to their
vector sum, independent of order. -/
theorem qfrc_additive_composition_witness :
    (beforePhase 2 ([[1, 2], [10, 20]].map (addCb 2)) dg).qfrc_applied =
        vecSum 2 [[1, 2], [10, 20]] ∧
    (∀ i, i < 2 →
      (beforePhase 2 ([[1, 2], [10, 20]].map (addCb 2)) dg).qfrc_applied.getD i 0 =
        ([[1, 2], [10, 20]].map (fun c => c.getD i 0)).sum) ∧
    (beforePhase 2 ([[10, 20], [1, 2]].map (addCb 2)) dg).qfrc_applied =
      (beforePhase 2 ([[1, 2], [10, 20]].map (addCb 2)) dg).qfrc_applied ∧
    (∀ e : MjData, gravityCompensation 2 e = addCb 2 e.qfrc_bias e) :=
  qfrc_additive_composition 2 [[1, 2], [10, 20]] [[10, 20], [1, 2]] dg rfl
    (by simp) (List.Perm.swap [10, 20] [1, 2] [])

/-- The immutable model quantities consulted by the reset home-pose
loop: the joint count `njnt`, the per-actuator transmission target
table `actuator_trnid` (2 entries per actuator), the joint qpos address
table `jnt_qposadr` and the joint type table `jnt_type`
(0 free, 1 ball, 2 slide, 3 hinge). -/
structure MjModel where
  njnt : Nat
  actuator_trnid : List Int
  jnt_qposadr : List Nat
  jnt_type : List Nat
  deriving DecidableEq

/-- The IK target gizmo pose: the world position and the world rotation
matrix copied from the tracked site (the THREE.js quaternion stored by
the UI is an equivalent representation of this matrix). -/
structure Gizmo where
  pos : List ℚ
  mat : List ℚ
  deriving DecidableEq

/-- The scene configuration fields consulted by `reset`. -/
structure SceneConfig where
  homeJoints : Option (List ℚ)
  onReset : Option (MjData → MjData)

/-- The observable phases of the reset procedure, in the order they
execute. -/
inductive ResetEvent where
  | engineReset
  | poseApply
  | userHook
  | forwardKin
  | pluginNotify
  deriving DecidableEq

/-- The `syncGizmoToSite` helper: a no-op when `siteId` is −1, otherwise
it copies the tracked site's world position (3 entries) and rotation
matrix (9 entries) into the gizmo. -/
def syncGizmoToSite (d : MjData) (siteId : Int) (g : Gizmo) : Gizmo :=
  if siteId = -1 then g
  else
    ⟨(d.site_xpos.drop (3 * siteId.toNat)).take 3,
      (d.site_xmat.drop (9 * siteId.toNat)).take 9⟩

/-- One iteration of the reset home-pose loop: write `ctrl[i]`, and when
`actuator_trnid[2i+1] === 1` and the joint id `actuator_trnid[2i]` lies
in `[0, njnt)`, also write `qpos` at that joint's qpos address. -/
def applyHomeStep (m : MjModel) (i : Nat) (h : ℚ) (d : MjData) : MjData :=
  let d1 := { d with ctrl := d.ctrl.set i h }
  if m.actuator_trnid.getD (2 * i + 1) (-1) = 1 then
    let jointId := m.actuator_trnid.getD (2 * i) (-1)
    if 0 ≤ jointId ∧ jointId < (m.njnt : Int) then
      { d1 with qpos := d1.qpos.set (m.jnt_qposadr.getD jointId.toNat 0) h }
    else d1
  else d1

def applyHomeAux (m : MjModel) : List ℚ → Nat → MjData → MjData
  | [], _, d => d
  | h :: rest, i, d => applyHomeAux m rest (i + 1) (applyHomeStep m i h d)

/-- The reset home-pose loop over all configured home values. -/
def applyHome (m : MjModel) (home : List ℚ) (d : MjData) : MjData :=
  applyHomeAux m home 0 d

/-- Formalisation of the claim's home-pose rule, for comparison with
`applyHome`: the qpos entry is written iff the actuator's transmission
target joint exists and is a scalar joint (slide = 2 or hinge = 3). -/
def applyHomeStepClaimed (m : MjModel) (i : Nat) (h : ℚ) (d : MjData) : MjData :=
  let d1 := { d with ctrl := d.ctrl.set i h }
  let jointId := m.actuator_trnid.getD (2 * i) (-1)
  if 0 ≤ jointId ∧ jointId < (m.njnt : Int) ∧
      (m.jnt_type.getD jointId.toNat 0 = 2 ∨ m.jnt_type.getD jointId.toNat 0 = 3) then
    { d1 with qpos := d1.qpos.set (m.jnt_qposadr.getD jointId.toNat 0) h }
  else d1

def applyHomeClaimedAux (m : MjModel) : List ℚ → Nat → MjData → MjData
  | [], _, d => d
  | h :: rest, i, d => applyHomeClaimedAux m rest (i + 1) (applyHomeStepClaimed m i h d)

def applyHomeClaimed (m : MjModel) (home : List ℚ) (d : MjData) : MjData :=
  applyHomeClaimedAux m home 0 d

/-- The home-pose phase of `reset` (skipped when no home vector is
configured). -/
def homeApply (cfg : SceneConfig) (m : MjModel) (d : MjData) : MjData :=
  match cfg.homeJoints with
  | some home => applyHome m home d
  | none => d

/-- The host-supplied `onReset` hook phase of `reset`. -/
def hookApply (cfg : SceneConfig) (d : MjData) : MjData :=
  match cfg.onReset with
  | some f => f d
  | none => d

/-- The outcome of `reset`: the new simulation state, the re-synced IK
gizmo, the cleared animation and IK flags, and the trace of phases in
execution order. -/
structure ResetResult where
  data : MjData
  gizmo : Gizmo
  gizmoAnimActive : Bool
  firstIkEnable : Bool
  ikEnabled : Bool
  trace : List ResetEvent

/-- The `reset()` API method, instrumented with a phase trace: cancel the
gizmo animation, call `mj_resetData`, re-apply the home pose, run the
host `onReset` hook, run `mj_forward`, then notify the IK plugin state
(gizmo re-sync from the final pose, `firstIkEnable := true`,
`ikEnabled := false`). -/
def reset (eng : Engine) (cfg : SceneConfig) (m : MjModel) (siteId : Int)
    (g : Gizmo) (d : MjData) : ResetResult :=
  let d1 := eng.mj_resetData d
  let t1 := [ResetEvent.engineReset]
  let d2 := homeApply cfg m d1
  let t2 := t1 ++ [ResetEvent.poseApply]
  let d3 := hookApply cfg d2
  let t3 := t2 ++ [ResetEvent.userHook]
  let d4 := eng.mj_forward d3
  let t4 := t3 ++ [ResetEvent.forwardKin]
  { data := d4
    gizmo := syncGizmoToSite d4 siteId g
    gizmoAnimActive := false
    firstIkEnable := true
    ikEnabled := false
    trace := t4 ++ [ResetEvent.pluginNotify] }

/-- A concrete model: one actuator whose transmission targets hinge
joint 0, with −1 in the second transmission-id slot. -/
def m0 : MjModel := ⟨1, [0, -1], [0], [3]⟩

/-- A concrete model: one actuator targeting ball joint 0 with a 1 in
the second transmission-id slot. -/
def m1 : MjModel := ⟨1, [0, 1], [0], [1]⟩

/-- A concrete scene configuration with one home value and no hook. -/
def cfg0 : SceneConfig := ⟨some [5], none⟩

/-- A concrete gizmo pose. -/
def g0 : Gizmo := ⟨[0, 0, 0], [1, 0, 0, 0, 1, 0, 0, 0, 1]⟩

/-- C5 counterexample: the reset procedure runs the host `onReset` hook
before the forward-kinematics pass, so its phase trace differs from the
claimed order (engine reset, pose re-application, forward kinematics,
user hook, plugin notification). -/
theorem reset_order_ne_claimed :
    (reset eng0 cfg0 m0 0 g0 d0).trace ≠
      [ResetEvent.engineReset, ResetEvent.poseApply, ResetEvent.forwardKin,
        ResetEvent.userHook, ResetEvent.pluginNotify] := by
  decide

/-- C5 amended: `reset` performs engine state reset, home-pose
re-application, the host `onReset` hook, forward kinematics, then
plugin notification, in that order — the user hook runs before the
forward-kinematics pass, not after it, so it sees the re-applied
`ctrl`/`qpos` but stale derived poses; the plugin notification (gizmo
re-sync, IK enabled flag forced to false, first-enable flag set) does
observe the final post-reset state. -/
theorem reset_order_spec (eng : Engine) (cfg : SceneConfig) (m : MjModel)
    (siteId : Int) (g : Gizmo) (d : MjData) :
    (reset eng cfg m siteId g d).trace =
      [ResetEvent.engineReset, ResetEvent.poseApply, ResetEvent.userHook,
        ResetEvent.forwardKin, ResetEvent.pluginNotify] ∧
    (reset eng cfg m siteId g d).data =
      eng.mj_forward (hookApply cfg (homeApply cfg m (eng.mj_resetData d))) ∧
    (reset eng cfg m siteId g d).gizmo =
      syncGizmoToSite (reset eng cfg m siteId g d).data siteId g ∧
    (reset eng cfg m siteId g d).ikEnabled = false ∧
    (reset eng cfg m siteId g d).firstIkEnable = true ∧
    (reset eng cfg m siteId g d).gizmoAnimActive = false :=
  ⟨rfl, rfl, rfl, rfl, rfl, rfl⟩

/-- C6 counterexample: for an actuator transmitting to hinge joint 0
with −1 in its second transmission-id slot, the source leaves `qpos`
untouched while the claimed hinge/slide rule would write it. -/
theorem applyHome_ne_claimed :
    applyHome m0 [5] d0 ≠ applyHomeClaimed m0 [5] d0 ∧
    (applyHome m0 [5] d0).qpos = [0] ∧
    (applyHomeClaimed m0 [5] d0).qpos = [5] := by
  refine ⟨?_, rfl, rfl⟩
  intro h
  have := congrArg MjData.qpos h
  simp only [show (applyHome m0 [5] d0).qpos = [0] from rfl,
    show (applyHomeClaimed m0 [5] d0).qpos = [5] from rfl] at this
  exact absurd (List.cons.inj this).1 (by norm_num)

/-- The qpos-write gate of the reset home-pose loop, as the source tests
it for actuator `i`: `actuator_trnid[2i+1] === 1` and the joint id
`actuator_trnid[2i]` lies in `[0, njnt)`. -/
abbrev gateOn (m : MjModel) (i : Nat) : Prop :=
  m.actuator_trnid.getD (2 * i + 1) (-1) = 1 ∧
  0 ≤ m.actuator_trnid.getD (2 * i) (-1) ∧
  m.actuator_trnid.getD (2 * i) (-1) < (m.njnt : Int)

/-- The qpos address the home-pose loop writes for actuator `i`: the
qpos address of its target joint. -/
def qposAdrOf (m : MjModel) (i : Nat) : Nat :=
  m.jnt_qposadr.getD (m.actuator_trnid.getD (2 * i) (-1)).toNat 0

lemma applyHomeStep_eq (m : MjModel) (i : Nat) (h : ℚ) (d : MjData) :
    applyHomeStep m i h d =
      if gateOn m i then
        { d with ctrl := d.ctrl.set i h, qpos := d.qpos.set (qposAdrOf m i) h }
      else { d with ctrl := d.ctrl.set i h } := by
  simp only [applyHomeStep, gateOn, qposAdrOf]
  by_cases h1 : m.actuator_trnid.getD (2 * i + 1) (-1) = 1
  · by_cases h2 : 0 ≤ m.actuator_trnid.getD (2 * i) (-1) ∧
        m.actuator_trnid.getD (2 * i) (-1) < (m.njnt : Int)
    · rw [if_pos h1, if_pos h2, if_pos ⟨h1, h2.1, h2.2⟩]
    · rw [if_pos h1, if_neg h2, if_neg (fun hg => h2 ⟨hg.2.1, hg.2.2⟩)]
  · rw [if_neg h1, if_neg (fun hg => h1 hg.1)]

lemma getD_set_self : ∀ (l : List ℚ) (i : Nat) (a : ℚ), i < l.length →
    (l.set i a).getD i 0 = a := by
  intro l
  induction l with
  | nil => intro i a h; simp at h
  | cons x xs ih =>
    intro i a h
    cases i with
    | zero => rfl
    | succ j =>
      simp only [List.set, List.getD_cons_succ]
      exact ih j a (by simpa using h)

lemma getD_set_ne : ∀ (l : List ℚ) (i j : Nat) (a : ℚ), i ≠ j →
    (l.set i a).getD j 0 = l.getD j 0 := by
  intro l
  induction l with
  | nil => intro i j a h; rfl
  | cons x xs ih =>
    intro i j a h
    cases i with
    | zero =>
      cases j with
      | zero => exact absurd rfl h
      | succ j2 => rfl
    | succ i2 =>
      cases j with
      | zero => rfl
      | succ j2 =>
        simp only [List.set, List.getD_cons_succ]
        exact ih i2 j2 a (fun hh => h (by rw [hh]))

lemma getD_append_left : ∀ (l l2 : List ℚ) (k : Nat), k < l.length →
    (l ++ l2).getD k 0 = l.getD k 0 := by
  intro l
  induction l with
  | nil => intro l2 k h; simp at h
  | cons x xs ih =>
    intro l2 k h
    cases k with
    | zero => rfl
    | succ k2 =>
      simp only [List.cons_append, List.getD_cons_succ]
      exact ih l2 k2 (by simpa using h)

lemma getD_append_len : ∀ (l : List ℚ) (h : ℚ),
    (l ++ [h]).getD l.length 0 = h := by
  intro l
  induction l with
  | nil => intro h; rfl
  | cons x xs ih =>
    intro h
    simp only [List.cons_append, List.length_cons, List.getD_cons_succ]
    exact ih h

lemma applyHomeAux_snoc (m : MjModel) : ∀ (home : List ℚ) (h : ℚ) (i : Nat)
    (d : MjData),
    applyHomeAux m (home ++ [h]) i d =
      applyHomeStep m (i + home.length) h (applyHomeAux m home i d) := by
  intro home
  induction home with
  | nil =>
    intro h i d
    simp [applyHomeAux]
  | cons h0 rest ih =>
    intro h i d
    simp only [List.cons_append, List.length_cons, applyHomeAux, List.append_eq]
    rw [ih]
    have he : i + 1 + rest.length = i + (rest.length + 1) := by omega
    rw [he]

lemma applyHome_snoc (m : MjModel) (home : List ℚ) (h : ℚ) (d : MjData) :
    applyHome m (home ++ [h]) d =
      applyHomeStep m home.length h (applyHome m home d) := by
  unfold applyHome
  rw [applyHomeAux_snoc]
  simp

/-- C6 amended: during reset, for every actuator index `i` with a home
value, `ctrl[i]` is set to that home value (entries beyond the home
vector are untouched); a `qpos` entry is written exactly when some
gated actuator targets it, where the gate is
`actuator_trnid[2i+1] === 1` together with the joint id
`actuator_trnid[2i]` lying in `[0, njnt)` — irrespective of the target
joint's type — and when several gated actuators target the same
address the one with the highest index wins (the loop runs in index
order). -/
theorem applyHome_gate_spec (m : MjModel) (home : List ℚ) (d : MjData) :
    (applyHome m home d).ctrl.length = d.ctrl.length ∧
    (applyHome m home d).qpos.length = d.qpos.length ∧
    (∀ k, k < home.length → k < d.ctrl.length →
      (applyHome m home d).ctrl.getD k 0 = home.getD k 0) ∧
    (∀ k, home.length ≤ k →
      (applyHome m home d).ctrl.getD k 0 = d.ctrl.getD k 0) ∧
    (∀ k, (∀ i, i < home.length → gateOn m i → qposAdrOf m i ≠ k) →
      (applyHome m home d).qpos.getD k 0 = d.qpos.getD k 0) ∧
    (∀ i k, i < home.length → gateOn m i → qposAdrOf m i = k →
      k < d.qpos.length →
      (∀ i2, i < i2 → i2 < home.length → gateOn m i2 → qposAdrOf m i2 ≠ k) →
      (applyHome m home d).qpos.getD k 0 = home.getD i 0) := by
  induction home using List.reverseRecOn with
  | nil =>
    refine ⟨rfl, rfl, ?_, ?_, ?_, ?_⟩
    · intro k hk hkc
      simp at hk
    · intro k _
      rfl
    · intro k _
      rfl
    · intro i k hi
      simp at hi
  | append_singleton home h ih =>
    obtain ⟨ihCL, ihQL, ihC, ihC2, ihQU, ihQW⟩ := ih
    rw [applyHome_snoc, applyHomeStep_eq]
    by_cases hg : gateOn m home.length
    · rw [if_pos hg]
      dsimp only
      refine ⟨?_, ?_, ?_, ?_, ?_, ?_⟩
      · rw [List.length_set]
        exact ihCL
      · rw [List.length_set]
        exact ihQL
      · intro k hk hkc
        rcases Nat.lt_or_ge k home.length with hlt | hge
        · rw [getD_set_ne _ _ _ _ (by omega),
            ihC k hlt hkc, getD_append_left _ _ _ hlt]
        · have hk0 : k = home.length := by simp at hk; omega
          subst hk0
          rw [getD_set_self _ _ _ (by rw [ihCL]; exact hkc), getD_append_len]
      · intro k hk
        rw [getD_set_ne _ _ _ _ (by simp at hk; omega)]
        exact ihC2 k (by simp at hk; omega)
      · intro k hnone
        have hne : qposAdrOf m home.length ≠ k :=
          hnone home.length (by simp) hg
        rw [getD_set_ne _ _ _ _ hne]
        exact ihQU k (fun i hi hgi => hnone i (by simp; omega) hgi)
      · intro i k hi hgi hadr hkq hlater
        rcases Nat.lt_or_ge i home.length with hilt | hige
        · have hne : qposAdrOf m home.length ≠ k :=
            hlater home.length hilt (by simp) hg
          rw [getD_set_ne _ _ _ _ hne,
            ihQW i k hilt hgi hadr hkq
              (fun i2 h1 h2 => hlater i2 h1 (by simp; omega)),
            getD_append_left _ _ _ hilt]
        · have hi0 : i = home.length := by simp at hi; omega
          subst hi0
          rw [← hadr,
            getD_set_self _ _ _ (by rw [ihQL, hadr]; exact hkq),
            getD_append_len]
    · rw [if_neg hg]
      dsimp only
      refine ⟨?_, ?_, ?_, ?_, ?_, ?_⟩
      · rw [List.length_set]
        exact ihCL
      · exact ihQL
      · intro k hk hkc
        rcases Nat.lt_or_ge k home.length with hlt | hge
        · rw [getD_set_ne _ _ _ _ (by omega),
            ihC k hlt hkc, getD_append_left _ _ _ hlt]
        · have hk0 : k = home.length := by simp at hk; omega
          subst hk0
          rw [getD_set_self _ _ _ (by rw [ihCL]; exact hkc), getD_append_len]
      · intro k hk
        rw [getD_set_ne _ _ _ _ (by simp at hk; omega)]
        exact ihC2 k (by simp at hk; omega)
      · intro k hnone
        exact ihQU k (fun i hi hgi => hnone i (by simp; omega) hgi)
      · intro i k hi hgi hadr hkq hlater
        have hilt : i < home.length := by
          rcases Nat.lt_or_ge i home.length with hl | hge2
          · exact hl
          · have hi0 : i = home.length := by simp at hi; omega
            subst hi0
            exact absurd hgi hg
        rw [ihQW i k hilt hgi hadr hkq
            (fun i2 h1 h2 => hlater i2 h1 (by simp; omega)),
          getD_append_left _ _ _ hilt]

/-- C6 witness: the gate in action on concrete models — the ball-joint
actuator of `m1` (second slot 1, joint id in range) gets both the ctrl
and the qpos write, while the hinge-joint actuator of `m0` (second
slot −1) leaves qpos untouched. -/
theorem applyHome_gate_spec_witness :
    (applyHome m1 [5] d0).qpos.getD 0 0 = ([5] : List ℚ).getD 0 0 ∧
    (applyHome m1 [5] d0).ctrl.getD 0 0 = ([5] : List ℚ).getD 0 0 ∧
    (applyHome m0 [5] dg).qpos.getD 0 0 = dg.qpos.getD 0 0 :=
  ⟨(applyHome_gate_spec m1 [5] d0).2.2.2.2.2 0 0 (by decide) (by decide)
      (by decide) (by decide) (by intro i2 h1 h2; simp at h2; omega),
   (applyHome_gate_spec m1 [5] d0).2.2.1 0 (by decide) (by decide),
   (applyHome_gate_spec m0 [5] dg).2.2.2.2.1 0
      (by
        intro i hi hgi
        have h0 : i = 0 := by simp at hi; omega
        subst h0
        exact absurd hgi.1 (by decide))⟩

/-- A saved snapshot of the simulation state: owned copies of `time`,
`qpos`, `qvel`, `ctrl`, `act` and `qfrc_applied`. -/
structure StateSnapshot where
  time : ℚ
  qpos : List ℚ
  qvel : List ℚ
  ctrl : List ℚ
  act : List ℚ
  qfrc_applied : List ℚ
  deriving DecidableEq

/-- The `saveState()` API method: deep-copy the snapshot fields. -/
def saveState (d : MjData) : StateSnapshot :=
  ⟨d.time, d.qpos, d.qvel, d.ctrl, d.act, d.qfrc_applied⟩

/-- The prefix overwrite performed by `TypedArray.set` with a source no
longer than the target: the source, followed by the target's remaining
tail. -/
def overwriteBy (src dst : List ℚ) : List ℚ := src ++ dst.drop src.length

/-- The semantics of JavaScript `dst.set(src)` on typed arrays: a
`RangeError` (modelled as `none`) when the source is longer than the
target, otherwise a prefix overwrite. -/
def taSet (dst src : List ℚ) : Option (List ℚ) :=
  if dst.length < src.length then none else some (overwriteBy src dst)

/-- The `restoreState(snapshot)` API method: assign `time`, then `set`
each array in turn (`act` only when the snapshot's `act` is non-empty),
then run `mj_forward`.  The boolean reports whether the sequence ran to
completion; `false` models the `RangeError` thrown by `TypedArray.set`,
and the state component carries the writes already performed before the
throw. -/
def restoreState (eng : Engine) (snap : StateSnapshot) (d : MjData) :
    MjData × Bool :=
  let d0 := { d with time := snap.time }
  match taSet d0.qpos snap.qpos with
  | none => (d0, false)
  | some v =>
    let d1 := { d0 with qpos := v }
    match taSet d1.qvel snap.qvel with
    | none => (d1, false)
    | some v =>
      let d2 := { d1 with qvel := v }
      match taSet d2.ctrl snap.ctrl with
      | none => (d2, false)
      | some v =>
        let d3 := { d2 with ctrl := v }
        match (if 0 < snap.act.length then taSet d3.act snap.act else some d3.act) with
        | none => (d3, false)
        | some v =>
          let d4 := { d3 with act := v }
          match taSet d4.qfrc_applied snap.qfrc_applied with
          | none => (d4, false)
          | some v => (eng.mj_forward { d4 with qfrc_applied := v }, true)

/-- Formalisation of the claim's restore contract, for comparison with
`restoreState`: compare every length first and fail with
`DimensionMismatch` (modelled as `none`) on any mismatch, writing
nothing; otherwise write everything and run `mj_forward`. -/
def restoreStateClaimed (eng : Engine) (snap : StateSnapshot) (d : MjData) :
    Option MjData :=
  if snap.qpos.length = d.qpos.length ∧ snap.qvel.length = d.qvel.length ∧
      snap.ctrl.length = d.ctrl.length ∧ snap.act.length = d.act.length ∧
      snap.qfrc_applied.length = d.qfrc_applied.length then
    some (eng.mj_forward
      { d with time := snap.time, qpos := snap.qpos, qvel := snap.qvel,
               ctrl := snap.ctrl, act := snap.act, qfrc_applied := snap.qfrc_applied })
  else none

/-- A concrete snapshot whose array lengths do not match `dg`. -/
def snap0 : StateSnapshot := ⟨7, [9], [], [], [], []⟩

/-- C7 counterexample: restoring a snapshot whose `qpos` is shorter than
the live model's succeeds silently with a partial (prefix) write — no
length comparison and no `DimensionMismatch` — whereas the claimed
contract rejects it. -/
theorem restoreState_ne_claimed :
    (restoreState eng0 snap0 dg).2 = true ∧
    (restoreState eng0 snap0 dg).1.qpos = [9, 0] ∧
    (restoreState eng0 snap0 dg).1.qpos ≠ dg.qpos ∧
    restoreStateClaimed eng0 snap0 dg = none := by
  refine ⟨rfl, rfl, ?_, by norm_num [restoreStateClaimed, dg, snap0]⟩
  intro h
  have h2 : (9 : ℚ) = 0 := by
    have h1 : ([9, 0] : List ℚ) = [0, 0] := by
      calc ([9, 0] : List ℚ) = (restoreState eng0 snap0 dg).1.qpos := rfl
        _ = dg.qpos := h
        _ = [0, 0] := rfl
    exact (List.cons.inj h1).1
  norm_num at h2

/-- C7 amended: `restoreState` performs no dimension check: it succeeds
exactly when every snapshot array fits into the live one (`act` only
checked when non-empty), in which case each live array is prefix
overwritten (silent truncation for shorter snapshots); on the failure
paths (a snapshot array longer than the live one) the fields already
processed — at least `time` — have already been mutated, so the live
state is partially written rather than protected. -/
theorem restoreState_semantics (eng : Engine) (snap : StateSnapshot) (d : MjData) :
    ((restoreState eng snap d).2 = true ↔
      snap.qpos.length ≤ d.qpos.length ∧ snap.qvel.length ≤ d.qvel.length ∧
      snap.ctrl.length ≤ d.ctrl.length ∧
      (0 < snap.act.length → snap.act.length ≤ d.act.length) ∧
      snap.qfrc_applied.length ≤ d.qfrc_applied.length) ∧
    ((restoreState eng snap d).2 = true →
      (restoreState eng snap d).1 = eng.mj_forward
        { d with time := snap.time,
                 qpos := overwriteBy snap.qpos d.qpos,
                 qvel := overwriteBy snap.qvel d.qvel,
                 ctrl := overwriteBy snap.ctrl d.ctrl,
                 act := if 0 < snap.act.length then overwriteBy snap.act d.act else d.act,
                 qfrc_applied := overwriteBy snap.qfrc_applied d.qfrc_applied }) ∧
    ((restoreState eng snap d).2 = false →
      (restoreState eng snap d).1.time = snap.time) := by
  by_cases h1 : d.qpos.length < snap.qpos.length
  · refine ⟨?_, ?_, ?_⟩ <;> simp [restoreState, taSet, h1] <;> omega
  · by_cases h2 : d.qvel.length < snap.qvel.length
    · refine ⟨?_, ?_, ?_⟩ <;> simp [restoreState, taSet, h1, h2] <;> omega
    · by_cases h3 : d.ctrl.length < snap.ctrl.length
      · refine ⟨?_, ?_, ?_⟩ <;> simp [restoreState, taSet, h1, h2, h3] <;> omega
      · by_cases ha : 0 < snap.act.length
        · by_cases h4 : d.act.length < snap.act.length
          · refine ⟨?_, ?_, ?_⟩ <;>
              simp [restoreState, taSet, h1, h2, h3, ha, h4] <;> omega
          · by_cases h5 : d.qfrc_applied.length < snap.qfrc_applied.length
            · refine ⟨?_, ?_, ?_⟩ <;>
                simp [restoreState, taSet, h1, h2, h3, ha, h4, h5] <;> omega
            · refine ⟨?_, ?_, ?_⟩ <;>
                simp [restoreState, taSet, overwriteBy, h1, h2, h3, ha, h4, h5] <;> omega
        · by_cases h5 : d.qfrc_applied.length < snap.qfrc_applied.length
          · refine ⟨?_, ?_, ?_⟩ <;>
              simp [restoreState, taSet, h1, h2, h3, ha, h5] <;> omega
          · refine ⟨?_, ?_, ?_⟩ <;>
              simp [restoreState, taSet, overwriteBy, h1, h2, h3, ha, h5] <;> omega

/-- C7 witness: the success criterion evaluated on the concrete
mismatched snapshot: restoring succeeds because every snapshot array
fits, despite the dimension mismatch. -/
theorem restoreState_semantics_witness :
    (restoreState eng0 snap0 dg).2 = true ↔
      snap0.qpos.length ≤ dg.qpos.length ∧ snap0.qvel.length ≤ dg.qvel.length ∧
      snap0.ctrl.length ≤ dg.ctrl.length ∧
      (0 < snap0.act.length → snap0.act.length ≤ dg.act.length) ∧
      snap0.qfrc_applied.length ≤ dg.qfrc_applied.length :=
  (restoreState_semantics eng0 snap0 dg).1

/-- Solver parameters of `GenericIK` with their source defaults. -/
structure GenericIKOptions where
  maxIterations : Nat
  damping : ℚ
  tolerance : ℚ
  epsilon : ℚ
  posWeight : ℚ
  rotWeight : ℚ

/-- The source's `DEFAULTS`: 50 iterations, damping 0.01, tolerance
1e-3, epsilon 1e-6, posWeight 1.0, rotWeight 0.3. -/
def ikDefaults : GenericIKOptions :=
  ⟨50, 1 / 100, 1 / 1000, 1 / 1000000, 1, 3 / 10⟩

/-- A quaternion (x, y, z, w). -/
structure Quat where
  x : ℚ
  y : ℚ
  z : ℚ
  w : ℚ
  deriving DecidableEq

/-- The transcendental kernel used by `orientationError` (`Math.acos`,
`Math.sin`, `Math.PI`), abstracted as an oracle: the solver's control
flow never depends on its internals beyond the values returned. -/
structure Trig where
  acos : ℚ → ℚ
  sin : ℚ → ℚ
  pi : ℚ

/-- The `quatToMat3` helper: quaternion to row-major 3×3 rotation
matrix. -/
def quatToMat3 (q : Quat) : List ℚ :=
  [1 - 2 * (q.y * q.y + q.z * q.z), 2 * (q.x * q.y - q.w * q.z),
     2 * (q.x * q.z + q.w * q.y),
   2 * (q.x * q.y + q.w * q.z), 1 - 2 * (q.x * q.x + q.z * q.z),
     2 * (q.y * q.z - q.w * q.x),
   2 * (q.x * q.z - q.w * q.y), 2 * (q.y * q.z + q.w * q.x),
     1 - 2 * (q.x * q.x + q.y * q.y)]

/-- Row `i` of `A` dotted with row `j` of `B` (both row-major 3×3). -/
def dot3At (A B : List ℚ) (i j : Nat) : ℚ :=
  A.getD (3 * i) 0 * B.getD (3 * j) 0 + A.getD (3 * i + 1) 0 * B.getD (3 * j + 1) 0 +
    A.getD (3 * i + 2) 0 * B.getD (3 * j + 2) 0

/-- The matrix product `A * Bᵀ` of two row-major 3×3 matrices (the
triple loops computing `R_tgt · R_curᵀ` and `R_pert · R_baseᵀ`). -/
def mat3MulT (A B : List ℚ) : List ℚ :=
  [dot3At A B 0 0, dot3At A B 0 1, dot3At A B 0 2,
   dot3At A B 1 0, dot3At A B 1 1, dot3At A B 1 2,
   dot3At A B 2 0, dot3At A B 2 1, dot3At A B 2 2]

/-- The `orientationError` helper: the axis-angle (log map) of
`R_tgt · R_curᵀ`, with the near-zero-angle branch returning the zero
vector and the near-π branch falling back to the skew-symmetric
extraction. -/
def orientationError (t : Trig) (R_cur R_tgt : List ℚ) : ℚ × ℚ × ℚ :=
  let Re := mat3MulT R_tgt R_cur
  let trace := Re.getD 0 0 + Re.getD 4 0 + Re.getD 8 0
  let cosAngle := max (-1) (min 1 ((trace - 1) * (1 / 2)))
  let angle := t.acos cosAngle
  if angle < 1 / 1000000 then (0, 0, 0)
  else if t.pi - 1 / 1000000 < angle then
    ((1 / 2) * (Re.getD 7 0 - Re.getD 5 0),
     (1 / 2) * (Re.getD 2 0 - Re.getD 6 0),
     (1 / 2) * (Re.getD 3 0 - Re.getD 1 0))
  else
    let s := angle / (2 * t.sin angle)
    (s * (Re.getD 7 0 - Re.getD 5 0),
     s * (Re.getD 2 0 - Re.getD 6 0),
     s * (Re.getD 3 0 - Re.getD 1 0))

/-- The `angularDelta` helper: small-angle angular velocity extracted
from the skew-symmetric part of `R_pert · R_baseᵀ`. -/
def angularDelta (R_base R_pert : List ℚ) : ℚ × ℚ × ℚ :=
  let dR := mat3MulT R_pert R_base
  ((1 / 2) * (dR.getD 7 0 - dR.getD 5 0),
   (1 / 2) * (dR.getD 2 0 - dR.getD 6 0),
   (1 / 2) * (dR.getD 3 0 - dR.getD 1 0))

/-- The partial-pivot search of `solve6x6`: the row at or below `col`
whose entry in column `col` has the largest absolute value (strictly
larger entries win, as in the source scan). -/
def pivotRow (a : List ℚ) (col : Nat) : Nat :=
  (List.range 6).foldl
    (fun best row =>
      if col < row ∧ |a.getD (best * 6 + col) 0| < |a.getD (row * 6 + col) 0| then row
      else best) col

/-- Swap two rows of the 6×6 matrix. -/
def swapRows (a : List ℚ) (r1 r2 : Nat) : List ℚ :=
  (List.range 36).map fun idx =>
    let row := idx / 6
    let k := idx % 6
    if row = r1 then a.getD (r2 * 6 + k) 0
    else if row = r2 then a.getD (r1 * 6 + k) 0
    else a.getD idx 0

/-- Swap two entries of the right-hand side. -/
def swapEntries (r : List ℚ) (r1 r2 : Nat) : List ℚ :=
  (List.range 6).map fun row =>
    if row = r1 then r.getD r2 0
    else if row = r2 then r.getD r1 0
    else r.getD row 0

/-- One elimination pass below the pivot of column `col`. -/
def elimBelow (a rhs : List ℚ) (col : Nat) : List ℚ × List ℚ :=
  let pivot := a.getD (col * 6 + col) 0
  ((List.range 36).map fun idx =>
      let row := idx / 6
      let k := idx % 6
      if col < row ∧ col ≤ k then
        a.getD idx 0 - (a.getD (row * 6 + col) 0 / pivot) * a.getD (col * 6 + k) 0
      else a.getD idx 0,
    (List.range 6).map fun row =>
      if col < row then rhs.getD row 0 - (a.getD (row * 6 + col) 0 / pivot) * rhs.getD col 0
      else rhs.getD row 0)

/-- The forward-elimination pass of `solve6x6` over the remaining
columns; `none` signals a pivot below the `1e-12` singularity
threshold. -/
def elimFrom : Nat → Nat → List ℚ → List ℚ → Option (List ℚ × List ℚ)
  | 0, _, a, rhs => some (a, rhs)
  | cl + 1, col, a, rhs =>
    let p := pivotRow a col
    let a1 := swapRows a col p
    let r1 := swapEntries rhs col p
    let pivot := a1.getD (col * 6 + col) 0
    if |pivot| < 1 / 1000000000000 then none
    else
      let ar := elimBelow a1 r1 col
      elimFrom cl (col + 1) ar.1 ar.2

/-- The back-substitution pass: solutions for the last `k` rows. -/
def backRows (a rhs : List ℚ) : Nat → List ℚ
  | 0 => []
  | k + 1 =>
    let row := 6 - (k + 1)
    let tail := backRows a rhs k
    let s := (List.range k).foldl
      (fun acc jj => acc + a.getD (row * 6 + (row + 1 + jj)) 0 * tail.getD jj 0) 0
    ((rhs.getD row 0 - s) / a.getD (row * 6 + row) 0) :: tail

/-- The `solve6x6` helper: Gaussian elimination with partial pivoting;
a singular system yields the zero vector (the source's `x.fill(0)`). -/
def solve6x6 (A b : List ℚ) : List ℚ :=
  match elimFrom 6 0 A b with
  | none => List.replicate 6 0
  | some ar => backRows ar.1 ar.2 6

/-- Overwrite the first `n` entries of a list with the corresponding
entries of another (the `data.qpos[i] = q[i]` loops). -/
def setFirst : Nat → List ℚ → List ℚ → List ℚ
  | 0, _, l => l
  | n + 1, c, l =>
    match c, l with
    | c0 :: ct, _ :: xt => c0 :: setFirst n ct xt
    | _, _ => l

/-- Write a working joint vector into the first `n` qpos entries. -/
def writeQpos (n : Nat) (q : List ℚ) (d : MjData) : MjData :=
  { d with qpos := setFirst n q d.qpos }

/-- The forward-kinematics dependency of the IK solver: a deterministic
map from `qpos` to the derived site pose arrays, together with the
trigonometric oracle. -/
structure IKWorld where
  fk : List ℚ → List ℚ × List ℚ
  trig : Trig

/-- The `mj_forward` call as the IK solver observes it: recompute the
derived site pose arrays from the current `qpos`. -/
def mjForwardIK (w : IKWorld) (d : MjData) : MjData :=
  { d with site_xpos := (w.fk d.qpos).1, site_xmat := (w.fk d.qpos).2 }

/-- The tracked site's world position (3 entries of `site_xpos`). -/
def siteSlice3 (d : MjData) (siteId : Nat) : List ℚ :=
  (d.site_xpos.drop (3 * siteId)).take 3

/-- The tracked site's world rotation (9 entries of `site_xmat`). -/
def siteSlice9 (d : MjData) (siteId : Nat) : List ℚ :=
  (d.site_xmat.drop (9 * siteId)).take 9

/-- One finite-difference Jacobian column: perturb joint `j` by
`epsilon`, rerun forward kinematics, read the perturbed site pose, form
the six weighted difference quotients, then restore joint `j`
(the site arrays keep the perturbed forward pass, as in the source). -/
def jacobianColumn (w : IKWorld) (o : GenericIKOptions) (siteId : Nat)
    (q basePos baseMat : List ℚ) (j : Nat) (d : MjData) : List ℚ × MjData :=
  let saved := d.qpos.getD j 0
  let dp := mjForwardIK w { d with qpos := d.qpos.set j (q.getD j 0 + o.epsilon) }
  let pertPos := siteSlice3 dp siteId
  let pertMat := siteSlice9 dp siteId
  let dRot := angularDelta baseMat pertMat
  ([((pertPos.getD 0 0 - basePos.getD 0 0) / o.epsilon) * o.posWeight,
    ((pertPos.getD 1 0 - basePos.getD 1 0) / o.epsilon) * o.posWeight,
    ((pertPos.getD 2 0 - basePos.getD 2 0) / o.epsilon) * o.posWeight,
    (dRot.1 / o.epsilon) * o.rotWeight,
    (dRot.2.1 / o.epsilon) * o.rotWeight,
    (dRot.2.2 / o.epsilon) * o.rotWeight],
   { dp with qpos := dp.qpos.set j saved })

/-- All Jacobian columns in joint order, threading the state. -/
def jacobianCols (w : IKWorld) (o : GenericIKOptions) (siteId : Nat)
    (q basePos baseMat : List ℚ) : List Nat → MjData → List (List ℚ) × MjData
  | [], d => ([], d)
  | j :: js, d =>
    let c := jacobianColumn w o siteId q basePos baseMat j d
    let rest := jacobianCols w o siteId q basePos baseMat js c.2
    (c.1 :: rest.1, rest.2)

/-- Assemble the row-major 6×`n` Jacobian from its columns. -/
def buildJ (cols : List (List ℚ)) : List ℚ :=
  (List.range 6).foldr (fun r acc => cols.map (fun c => c.getD r 0) ++ acc) []

/-- The damped normal matrix `J Jᵀ + damping · I` (6×6, row-major). -/
def computeJJt (n : Nat) (damping : ℚ) (J : List ℚ) : List ℚ :=
  (List.range 36).map fun idx =>
    let r := idx / 6
    let c := idx % 6
    ((List.range n).foldl
        (fun acc k => acc + J.getD (r * n + k) 0 * J.getD (c * n + k) 0) 0) +
      (if r = c then damping else 0)

/-- The joint update `Δq = Jᵀ x`. -/
def computeDq (n : Nat) (J x : List ℚ) : List ℚ :=
  (List.range n).map fun j =>
    (List.range 6).foldl (fun acc r => acc + J.getD (r * n + j) 0 * x.getD r 0) 0

/-- The start of a solver iteration: write the working joint vector into
`qpos[0..n)` and run forward kinematics. -/
def forwardAt (w : IKWorld) (n : Nat) (q : List ℚ) (d : MjData) : MjData :=
  mjForwardIK w (writeQpos n q d)

/-- The weighted 6-vector pose error of an iteration: translational
error `targetPos − sitePos` scaled by `posWeight` (3 rows), rotational
log-map error scaled by `rotWeight` (3 rows). -/
def errVecAt (w : IKWorld) (o : GenericIKOptions) (siteId n : Nat)
    (targetPos : ℚ × ℚ × ℚ) (R_target : List ℚ) (q : List ℚ) (d : MjData) :
    List ℚ :=
  let d1 := forwardAt w n q d
  let basePos := siteSlice3 d1 siteId
  let rotErr := orientationError w.trig (siteSlice9 d1 siteId) R_target
  [(targetPos.1 - basePos.getD 0 0) * o.posWeight,
   (targetPos.2.1 - basePos.getD 1 0) * o.posWeight,
   (targetPos.2.2 - basePos.getD 2 0) * o.posWeight,
   rotErr.1 * o.rotWeight, rotErr.2.1 * o.rotWeight, rotErr.2.2 * o.rotWeight]

/-- The squared Euclidean norm of an error vector. -/
def sumSq (v : List ℚ) : ℚ := v.foldl (fun a x => a + x * x) 0

/-- The iteration loop of `GenericIK.solve`, instrumented with the list
of `(joint vector, squared error norm)` pairs visited: write the working
joint vector, run forward kinematics, form the weighted 6-vector error,
track the best (smallest-error) joint vector seen, stop on convergence,
otherwise build the finite-difference Jacobian, solve the damped normal
equations and update the joint vector.  The source compares Euclidean
norms computed with `Math.sqrt`; the embedding compares squared norms
(against `bestErr` squared and `tolerance` squared), a strictly
monotone transform preserving every branch decision. -/
def solveLoop (w : IKWorld) (o : GenericIKOptions) (siteId n : Nat)
    (targetPos : ℚ × ℚ × ℚ) (R_target : List ℚ) :
    Nat → List ℚ → Option (List ℚ × ℚ) → MjData →
      Option (List ℚ × ℚ) × MjData × List (List ℚ × ℚ)
  | 0, _, best, d => (best, d, [])
  | iter + 1, q, best, d =>
    let d1 := forwardAt w n q d
    let errSq := sumSq (errVecAt w o siteId n targetPos R_target q d)
    let best1 :=
      match best with
      | none => some (q, errSq)
      | some b => if errSq < b.2 then some (q, errSq) else some b
    if errSq < o.tolerance * o.tolerance then (best1, d1, [(q, errSq)])
    else
      let jc := jacobianCols w o siteId q (siteSlice3 d1 siteId)
        (siteSlice9 d1 siteId) (List.range n) d1
      let d3 := writeQpos n q jc.2
      let J := buildJ jc.1
      let JJt := computeJJt n o.damping J
      let x := solve6x6 JJt (errVecAt w o siteId n targetPos R_target q d)
      let dq := computeDq n J x
      let q1 := List.zipWith (fun a b => a + b) q dq
      let r := solveLoop w o siteId n targetPos R_target iter q1 best1 d3
      (r.1, r.2.1, (q, errSq) :: r.2.2)

/-- The working joint vector initialisation `q[i] = currentQ[i]` for
`i < n`. -/
def seedQ (n : Nat) (currentQ : List ℚ) : List ℚ :=
  (List.range n).map fun i => currentQ.getD i 0

/-- `GenericIK.solve`: snapshot the full `qpos`, run the damped
least-squares iteration from `currentQ`, then restore the snapshotted
`qpos` and rerun forward kinematics; return the tracked best joint
vector (or `none` when no iteration executed). -/
def solve (w : IKWorld) (o : GenericIKOptions) (siteId n : Nat)
    (targetPos : ℚ × ℚ × ℚ) (targetQuat : Quat) (currentQ : List ℚ)
    (d : MjData) : Option (List ℚ) × MjData :=
  let savedQpos := d.qpos
  let R_target := quatToMat3 targetQuat
  let q := seedQ n currentQ
  let r := solveLoop w o siteId n targetPos R_target o.maxIterations q none d
  (r.1.map Prod.fst, mjForwardIK w { r.2.1 with qpos := savedQpos })

/-- The provider's `ikSolveFn` wrapper: `null` when the model or the
state is missing or the site id is −1; otherwise delegate to
`GenericIK.solve` with `numArmJoints ?? 7` joints and the default
options. -/
def ikSolveFn (w : IKWorld) (modelOpt : Option MjModel) (dataOpt : Option MjData)
    (siteId : Int) (numArmJoints : Option Nat) (pos : ℚ × ℚ × ℚ) (quat : Quat)
    (currentQ : List ℚ) : Option (List ℚ) :=
  match modelOpt, dataOpt with
  | some _, some d =>
    if siteId = -1 then none
    else (solve w ikDefaults siteId.toNat (numArmJoints.getD 7) pos quat currentQ d).1
  | _, _ => none

/-- The state components the IK solver never writes: everything except
`qpos` and the derived site pose arrays. -/
def coreFields (d : MjData) : ℚ × List ℚ × List ℚ × List ℚ × List ℚ × List ℚ :=
  (d.time, d.qvel, d.ctrl, d.act, d.qfrc_applied, d.qfrc_bias)

lemma jacobianCols_core (w : IKWorld) (o : GenericIKOptions) (siteId : Nat)
    (q basePos baseMat : List ℚ) : ∀ (js : List Nat) (d : MjData),
    coreFields (jacobianCols w o siteId q basePos baseMat js d).2 = coreFields d := by
  intro js
  induction js with
  | nil => intro d; rfl
  | cons j js ih =>
    intro d
    show coreFields (jacobianCols w o siteId q basePos baseMat js
      (jacobianColumn w o siteId q basePos baseMat j d).2).2 = coreFields d
    rw [ih]
    rfl

lemma solveLoop_core (w : IKWorld) (o : GenericIKOptions) (siteId n : Nat)
    (tp : ℚ × ℚ × ℚ) (Rt : List ℚ) : ∀ (iter : Nat) (q : List ℚ)
    (best : Option (List ℚ × ℚ)) (d : MjData),
    coreFields (solveLoop w o siteId n tp Rt iter q best d).2.1 = coreFields d := by
  intro iter
  induction iter with
  | zero => intro q best d; rfl
  | succ it ih =>
    intro q best d
    simp only [solveLoop]
    split
    · rfl
    · rw [ih]
      exact jacobianCols_core w o siteId q _ _ (List.range n)
        (mjForwardIK w (writeQpos n q d))

/-- C8: `GenericIK.solve` is side-effect-free on the state: the full
`qpos` is snapshotted at entry and restored at exit, so `qpos` after
the call is identical to `qpos` before it; forward kinematics is rerun
after the restore, so the derived site caches reflect the original
pose; and every other state component (time, qvel, ctrl, act, the force
accumulators) is returned untouched. -/
theorem solve_sideEffectFree (w : IKWorld) (o : GenericIKOptions) (siteId n : Nat)
    (tp : ℚ × ℚ × ℚ) (tq : Quat) (currentQ : List ℚ) (d : MjData) :
    (solve w o siteId n tp tq currentQ d).2.qpos = d.qpos ∧
    (solve w o siteId n tp tq currentQ d).2.site_xpos = (w.fk d.qpos).1 ∧
    (solve w o siteId n tp tq currentQ d).2.site_xmat = (w.fk d.qpos).2 ∧
    coreFields (solve w o siteId n tp tq currentQ d).2 = coreFields d := by
  refine ⟨rfl, rfl, rfl, ?_⟩
  exact solveLoop_core w o siteId n tp (quatToMat3 tq) o.maxIterations
    ((List.range n).map fun i => currentQ.getD i 0) none d

lemma solveLoop_keepsSome (w : IKWorld) (o : GenericIKOptions) (siteId n : Nat)
    (tp : ℚ × ℚ × ℚ) (Rt : List ℚ) : ∀ (iter : Nat) (q : List ℚ)
    (b : List ℚ × ℚ) (d : MjData),
    ((solveLoop w o siteId n tp Rt iter q (some b) d).1).isSome = true := by
  intro iter
  induction iter with
  | zero => intro q b d; rfl
  | succ it ih =>
    intro q b d
    simp only [solveLoop]
    split
    · split <;> rfl
    · split
      · exact ih _ _ _
      · exact ih _ _ _

lemma solveLoop_someOfPos (w : IKWorld) (o : GenericIKOptions) (siteId n : Nat)
    (tp : ℚ × ℚ × ℚ) (Rt : List ℚ) (it : Nat) (q : List ℚ) (d : MjData) :
    ((solveLoop w o siteId n tp Rt (it + 1) q none d).1).isSome = true := by
  simp only [solveLoop]
  split
  · rfl
  · exact solveLoop_keepsSome w o siteId n tp Rt it _ _ _

lemma solve_isSome (w : IKWorld) (o : GenericIKOptions) (siteId n : Nat)
    (tp : ℚ × ℚ × ℚ) (tq : Quat) (currentQ : List ℚ) (d : MjData)
    (h : 0 < o.maxIterations) :
    ((solve w o siteId n tp tq currentQ d).1).isSome = true := by
  obtain ⟨it, hit⟩ : ∃ it, o.maxIterations = it + 1 :=
    ⟨o.maxIterations - 1, by omega⟩
  show ((solveLoop w o siteId n tp (quatToMat3 tq) o.maxIterations
      (seedQ n currentQ) none d).1.map Prod.fst).isSome = true
  rw [hit]
  cases hr : (solveLoop w o siteId n tp (quatToMat3 tq) (it + 1)
      (seedQ n currentQ) none d).1 with
  | none =>
    have h2 := solveLoop_someOfPos w o siteId n tp (quatToMat3 tq) it
      (seedQ n currentQ) d
    rw [hr] at h2
    exact absurd h2 (by simp)
  | some p => rfl

lemma solveLoop_best_tracks (w : IKWorld) (o : GenericIKOptions) (siteId n : Nat)
    (tp : ℚ × ℚ × ℚ) (Rt : List ℚ) : ∀ (iter : Nat) (q : List ℚ)
    (best : Option (List ℚ × ℚ)) (d : MjData) (qr : List ℚ) (e : ℚ),
    (solveLoop w o siteId n tp Rt iter q best d).1 = some (qr, e) →
    ((qr, e) ∈ (solveLoop w o siteId n tp Rt iter q best d).2.2 ∨
      best = some (qr, e)) ∧
    (∀ p ∈ (solveLoop w o siteId n tp Rt iter q best d).2.2, e ≤ p.2) ∧
    (∀ b : List ℚ × ℚ, best = some b → e ≤ b.2) := by
  intro iter
  induction iter with
  | zero =>
    intro q best d qr e h
    refine ⟨Or.inr h, ?_, ?_⟩
    · intro p hp
      exact absurd hp (List.not_mem_nil p)
    · intro b hb
      have h0 : best = some (qr, e) := h
      rw [hb] at h0
      have hbe : b = (qr, e) := Option.some.inj h0
      rw [hbe]
  | succ it ih =>
    intro q best d qr e h
    cases best with
    | none =>
      simp only [solveLoop] at h ⊢
      by_cases hc : sumSq (errVecAt w o siteId n tp Rt q d) <
          o.tolerance * o.tolerance
      · rw [if_pos hc] at h ⊢
        have h2 : (q, sumSq (errVecAt w o siteId n tp Rt q d)) = (qr, e) :=
          Option.some.inj h
        refine ⟨Or.inl (List.mem_singleton.mpr h2.symm), ?_, ?_⟩
        · intro p hp
          rw [List.mem_singleton] at hp
          subst hp
          exact le_of_eq (congrArg Prod.snd h2).symm
        · intro b hb
          cases hb
      · rw [if_neg hc] at h ⊢
        obtain ⟨hmem, htr, hbb⟩ := ih _ _ _ _ _ h
        have hle := hbb _ rfl
        refine ⟨?_, ?_, ?_⟩
        · left
          cases hmem with
          | inl hm => exact List.mem_cons_of_mem _ hm
          | inr hb =>
            rw [← Option.some.inj hb]
            exact List.mem_cons_self _ _
        · intro p hp
          rcases List.mem_cons.mp hp with hp1 | hp2
          · subst hp1
            exact hle
          · exact htr p hp2
        · intro b hb
          cases hb
    | some b =>
      simp only [solveLoop] at h ⊢
      by_cases hc : sumSq (errVecAt w o siteId n tp Rt q d) <
          o.tolerance * o.tolerance
      · rw [if_pos hc] at h ⊢
        by_cases hlt : sumSq (errVecAt w o siteId n tp Rt q d) < b.2
        · rw [if_pos hlt] at h
          have h2 : (q, sumSq (errVecAt w o siteId n tp Rt q d)) = (qr, e) :=
            Option.some.inj h
          refine ⟨Or.inl (List.mem_singleton.mpr h2.symm), ?_, ?_⟩
          · intro p hp
            rw [List.mem_singleton] at hp
            subst hp
            exact le_of_eq (congrArg Prod.snd h2).symm
          · intro b2 hb2
            have hbe : b = b2 := Option.some.inj hb2
            subst hbe
            have he : sumSq (errVecAt w o siteId n tp Rt q d) = e :=
              congrArg Prod.snd h2
            rw [he] at hlt
            exact le_of_lt hlt
        · rw [if_neg hlt] at h
          have h2 : b = (qr, e) := Option.some.inj h
          refine ⟨Or.inr (congrArg some h2), ?_, ?_⟩
          · intro p hp
            rw [List.mem_singleton] at hp
            subst hp
            have hb2 : b.2 = e := congrArg Prod.snd h2
            rw [← hb2]
            exact not_lt.mp hlt
          · intro b2 hb2
            have hbe : b = b2 := Option.some.inj hb2
            subst hbe
            exact le_of_eq (congrArg Prod.snd h2).symm
      · rw [if_neg hc] at h ⊢
        by_cases hlt : sumSq (errVecAt w o siteId n tp Rt q d) < b.2
        · rw [if_pos hlt] at h ⊢
          obtain ⟨hmem, htr, hbb⟩ := ih _ _ _ _ _ h
          have hle := hbb _ rfl
          refine ⟨?_, ?_, ?_⟩
          · left
            cases hmem with
            | inl hm => exact List.mem_cons_of_mem _ hm
            | inr hb =>
              rw [← Option.some.inj hb]
              exact List.mem_cons_self _ _
          · intro p hp
            rcases List.mem_cons.mp hp with hp1 | hp2
            · subst hp1
              exact hle
            · exact htr p hp2
          · intro b2 hb2
            have hbe : b = b2 := Option.some.inj hb2
            subst hbe
            exact le_of_lt (lt_of_le_of_lt hle hlt)
        · rw [if_neg hlt] at h ⊢
          obtain ⟨hmem, htr, hbb⟩ := ih _ _ _ _ _ h
          have hle := hbb _ rfl
          refine ⟨?_, ?_, ?_⟩
          · cases hmem with
            | inl hm => exact Or.inl (List.mem_cons_of_mem _ hm)
            | inr hb => exact Or.inr hb
          · intro p hp
            rcases List.mem_cons.mp hp with hp1 | hp2
            · subst hp1
              exact le_trans hle (not_lt.mp hlt)
            · exact htr p hp2
          · intro b2 hb2
            have hbe : b = b2 := Option.some.inj hb2
            subst hbe
            exact hle

/-- A concrete trigonometric oracle. -/
def trig0 : Trig := ⟨fun _ => 0, fun _ => 0, 355 / 113⟩

/-- A concrete IK world: constant forward kinematics placing the site at
the origin with the identity orientation. -/
def w0 : IKWorld :=
  ⟨fun _ => ([0, 0, 0], [1, 0, 0, 0, 1, 0, 0, 0, 1]), trig0⟩

/-- The identity quaternion. -/
def tq0 : Quat := ⟨0, 0, 0, 1⟩

/-- The default solver options with the iteration budget set to zero. -/
def o0 : GenericIKOptions := ⟨0, 1 / 100, 1 / 1000, 1 / 1000000, 1, 3 / 10⟩

/-- C9: the amended return contract of the IK solver.  `solve` returns
the tracked best joint vector of its iteration loop; whenever the
returned value is `some`, it is a joint vector actually visited whose
squared error norm is minimal among all visited iterations (best-effort
even without convergence); the result is non-`none` whenever at least
one iteration executes (`maxIterations ≥ 1`); and the provider wrapper
`ikSolveFn` returns `null` exactly when the model or state is missing or
the site id is −1 (with the default options it otherwise always returns
a solution, even for `numJoints = 0`, which yields the empty vector
rather than `null`). -/
theorem ik_solve_return_paths (w : IKWorld) (o : GenericIKOptions) (siteId n : Nat)
    (tp : ℚ × ℚ × ℚ) (tq : Quat) (currentQ : List ℚ) (d : MjData)
    (modelOpt : Option MjModel) (dataOpt : Option MjData) (sId : Int)
    (numArm : Option Nat) (pos : ℚ × ℚ × ℚ) (quat : Quat) (cq : List ℚ) :
    ((solve w o siteId n tp tq currentQ d).1 =
      (solveLoop w o siteId n tp (quatToMat3 tq) o.maxIterations
        (seedQ n currentQ) none d).1.map Prod.fst) ∧
    (∀ (qr : List ℚ) (e : ℚ),
      (solveLoop w o siteId n tp (quatToMat3 tq) o.maxIterations
        (seedQ n currentQ) none d).1 = some (qr, e) →
      (qr, e) ∈ (solveLoop w o siteId n tp (quatToMat3 tq) o.maxIterations
        (seedQ n currentQ) none d).2.2 ∧
      ∀ p ∈ (solveLoop w o siteId n tp (quatToMat3 tq) o.maxIterations
        (seedQ n currentQ) none d).2.2, e ≤ p.2) ∧
    (0 < o.maxIterations → ((solve w o siteId n tp tq currentQ d).1).isSome = true) ∧
    (ikSolveFn w modelOpt dataOpt sId numArm pos quat cq = none ↔
      modelOpt = none ∨ dataOpt = none ∨ sId = -1) := by
  refine ⟨rfl, ?_, fun h => solve_isSome w o siteId n tp tq currentQ d h, ?_⟩
  · intro qr e h
    obtain ⟨hmem, htr, _⟩ := solveLoop_best_tracks w o siteId n tp (quatToMat3 tq)
      o.maxIterations (seedQ n currentQ) none d qr e h
    refine ⟨?_, htr⟩
    cases hmem with
    | inl hm => exact hm
    | inr hb => exact Option.noConfusion hb
  · cases modelOpt with
    | none => simp [ikSolveFn]
    | some m =>
      cases dataOpt with
      | none => simp [ikSolveFn]
      | some dd =>
        by_cases hs : sId = -1
        · simp [ikSolveFn, hs]
        · simp only [ikSolveFn, if_neg hs]
          constructor
          · intro hnone
            have h2 := solve_isSome w ikDefaults sId.toNat (numArm.getD 7)
              pos quat cq dd (by decide)
            rw [hnone] at h2
            exact absurd h2 (by simp)
          · intro hor
            rcases hor with h1 | h2 | h3
            · exact absurd h1 (by simp)
            · exact absurd h2 (by simp)
            · exact absurd h3 hs

/-- C9 counterexample: a `solve` call with the state and site present
and `numJoints = 1` still returns `None` when `opts.maxIterations = 0`
(no iteration executes) — a null return outside the claim's list of
failure paths; and `numJoints = 0` is not a null path: with the default
options the wrapper returns the empty joint vector, not `null`. -/
theorem solve_null_paths_ne_claimed :
    (solve w0 o0 0 1 (0, 0, 0) tq0 [0] d0).1 = none ∧
    ikSolveFn w0 (some m0) (some d0) 0 (some 0) (0, 0, 0) tq0 [] = some [] := by
  constructor
  · rfl
  · have h1 : ikSolveFn w0 (some m0) (some d0) 0 (some 0) (0, 0, 0) tq0 [] =
        (solve w0 ikDefaults 0 0 (0, 0, 0) tq0 [] d0).1 := by
      norm_num [ikSolveFn]
    rw [h1]
    have h2 : sumSq (errVecAt w0 ikDefaults 0 0 (0, 0, 0)
        (quatToMat3 tq0) (seedQ 0 []) d0) = 0 := by
      norm_num [sumSq, errVecAt, forwardAt, mjForwardIK, writeQpos, setFirst,
        seedQ, siteSlice3, siteSlice9, orientationError, mat3MulT, dot3At,
        quatToMat3, w0, trig0, tq0, d0, ikDefaults]
    show ((solveLoop w0 ikDefaults 0 0 (0, 0, 0) (quatToMat3 tq0) 50
        (seedQ 0 []) none d0).1.map Prod.fst) = some []
    have h3 : (50 : Nat) = 49 + 1 := rfl
    rw [h3, solveLoop]
    rw [if_pos (by rw [h2]; norm_num [ikDefaults])]
    rfl

/-- C9 witness: with the default options (50 iterations) the solver
returns a solution, and the wrapper returns `null` for site id −1. -/
theorem ik_solve_return_paths_witness :
    ((solve w0 ikDefaults 0 1 (0, 0, 0) tq0 [0] d0).1).isSome = true ∧
    (ikSolveFn w0 (some m0) (some d0) (-1) (some 1) (0, 0, 0) tq0 [0] = none ↔
      (some m0 : Option MjModel) = none ∨ (some d0 : Option MjData) = none ∨
        (-1 : Int) = -1) :=
  ⟨(ik_solve_return_paths w0 ikDefaults 0 1 (0, 0, 0) tq0 [0] d0 (some m0)
      (some d0) (-1) (some 1) (0, 0, 0) tq0 [0]).2.2.1 (by decide),
   (ik_solve_return_paths w0 ikDefaults 0 1 (0, 0, 0) tq0 [0] d0 (some m0)
      (some d0) (-1) (some 1) (0, 0, 0) tq0 [0]).2.2.2⟩

/-- C10 witness: `step 2` then `step 5` yields a tick that executes
exactly five engine steps. -/
theorem step_request_replaces_witness :
    0 < (5 : Nat) ∧
      (step 5 (step 2 ⟨false, 1, 1, 0⟩) = step 5 ⟨false, 1, 1, 0⟩ ∧
        tick eng0 1 none [] [] 0 (step 5 (step 2 ⟨false, 1, 1, 0⟩)) d0 =
          some (runCallbacks []
              (iterateSteps eng0 5 (ikApply none (beforePhase 1 [] d0))),
            ⟨false, 1, 1, 0⟩, 5)) :=
  ⟨by decide,
    step_request_replaces eng0 1 none [] [] 0 2 5 ⟨false, 1, 1, 0⟩ d0 (by decide)⟩

end MujocoReact
